import Mathlib

/-!
Verification of the nornir-rs inventory and connection-cache library.

The development shallowly embeds the repository's Rust code:

* `src/nornir-core/src/lib.rs` and `src/genja-core/src/types.rs`:
  the `NatString` natural-order key and the `CustomTreeMap` ordered store
  (a `BTreeMap` keyed by `NatString`).
* `src/nornir-core/src/inventory.rs`: the inventory data model
  (`ConnectionOptions`, `ResolvedConnectionParams`, `Host`, `Group`,
  `Inventory`), the `ParentGroups` deserializer, and the
  `ConnectionManager` connection cache.
* `src/genja-core/src/lib.rs`: the `Genja` filtered inventory view.

Machine integers (`u16` ports, lengths) never overflow in any modelled
operation, so they are embedded as `Nat`.
-/

/- ===================== Natural-order comparison ===================== -/

/-- Numeric value of a run of ASCII digit characters. -/
def digitVal (cs : List Char) : Nat :=
  cs.foldl (fun acc c => acc * 10 + (c.toNat - 48)) 0

/-- Modelled from the spec: `NatString`'s `Ord` instance delegates to the
external crate function `natord::compare`, whose source is not part of the
repository.  The spec describes the comparison as: "Comparison splits into
alternating runs of digits and non-digits; digit runs compare by numeric
value, other runs compare lexicographically by code point."  `charRuns`
computes the alternating maximal runs of a character list. -/
def charRuns : List Char → List (List Char)
  | [] => []
  | c :: cs =>
    match charRuns cs with
    | [] => [[c]]
    | [] :: rest => [c] :: rest
    | (d :: ds) :: rest =>
      if c.isDigit == d.isDigit then (c :: d :: ds) :: rest
      else [c] :: (d :: ds) :: rest

/-- Lexicographic comparison of character lists by code point. -/
def lexCmp : List Char → List Char → Ordering
  | [], [] => .eq
  | [], _ :: _ => .lt
  | _ :: _, [] => .gt
  | a :: as, b :: bs =>
    match compare a.toNat b.toNat with
    | .eq => lexCmp as bs
    | o => o

/-- Modelled from the spec: comparison of one aligned pair of runs.  Two
digit runs compare by numeric value; any other pair compares
lexicographically by code point. -/
def runCmp (r t : List Char) : Ordering :=
  if r.all Char.isDigit && t.all Char.isDigit then
    compare (digitVal r) (digitVal t)
  else lexCmp r t

/-- Modelled from the spec: comparison of the run decompositions of two
strings; the first non-equal aligned pair of runs decides, and a string
that is exhausted first is smaller. -/
def runsCmp : List (List Char) → List (List Char) → Ordering
  | [], [] => .eq
  | [], _ :: _ => .lt
  | _ :: _, [] => .gt
  | r :: rs, t :: ts =>
    match runCmp r t with
    | .eq => runsCmp rs ts
    | o => o

/-- Modelled from the spec: the natural-order string comparison used by
`impl Ord for NatString` (src/nornir-core/src/lib.rs lines 51-55 and
src/genja-core/src/types.rs lines 83-87). -/
def natordCompare (a b : String) : Ordering :=
  runsCmp (charRuns a.data) (charRuns b.data)

/-- The `NatString` wrapper (src/nornir-core/src/lib.rs line 33):
an immutable string whose `Ord` instance is the natural-order
comparison.  Equality (`PartialEq`) is derived, i.e. string equality. -/
structure NatString where
  str : String
deriving DecidableEq

/-- `impl Ord for NatString { fn cmp(&self, other) { compare(&self.0, &other.0) } }`. -/
def NatString.cmp (a b : NatString) : Ordering :=
  natordCompare a.str b.str

example : natordCompare "host2" "host10" = .lt := by decide
example : natordCompare "host10" "host100" = .lt := by decide
example : natordCompare "host01" "host1" = .eq := by decide
example : natordCompare "abc" "abd" = .lt := by decide
example : natordCompare "abc" "abc" = .eq := by decide
example : natordCompare "" "a" = .lt := by decide

/- ===================== CustomTreeMap (ordered store) ===================== -/

/-- Lookup in a `BTreeMap<NatString, V>`: the stored entry whose key
compares `Equal` to the query under the natural-order comparison.  Keys are
represented by their underlying strings. -/
def ctmGet {V : Type} : List (String × V) → String → Option V
  | [], _ => none
  | e :: t, k => if natordCompare e.1 k = .eq then some e.2 else ctmGet t k

/-- Insertion into a `BTreeMap<NatString, V>` kept in ascending natural
order: a key comparing `Equal` to an existing one replaces that entry's
value (the stored key is kept, as `BTreeMap::insert` does); otherwise the
entry is placed at its sorted position. -/
def ctmInsert {V : Type} : List (String × V) → String → V → List (String × V)
  | [], k, v => [(k, v)]
  | e :: t, k, v =>
    match natordCompare e.1 k with
    | .eq => (e.1, v) :: t
    | .gt => (k, v) :: e :: t
    | .lt => e :: ctmInsert t k v

/-- `CustomTreeMap` (src/nornir-core/src/lib.rs line 83,
src/genja-core/src/types.rs line 115): a `BTreeMap` keyed by `NatString`,
embedded as its ordered entry list. -/
structure CustomTreeMap (V : Type) where
  entries : List (String × V)
deriving DecidableEq

/-- `CustomTreeMap::new`. -/
def CustomTreeMap.new {V : Type} : CustomTreeMap V := ⟨[]⟩

/-- `CustomTreeMap::get`. -/
def CustomTreeMap.get {V : Type} (m : CustomTreeMap V) (key : String) : Option V :=
  ctmGet m.entries key

/-- `CustomTreeMap::insert`. -/
def CustomTreeMap.insert {V : Type} (m : CustomTreeMap V) (key : String) (value : V) :
    CustomTreeMap V :=
  ⟨ctmInsert m.entries key value⟩

/-- `CustomTreeMap::len`. -/
def CustomTreeMap.len {V : Type} (m : CustomTreeMap V) : Nat :=
  m.entries.length

/-- A map whose entries are strictly ascending in natural order — the
invariant every `BTreeMap` holds, phrased on the embedded entry list. -/
def CustomTreeMap.NatSorted {V : Type} (m : CustomTreeMap V) : Prop :=
  m.entries.Pairwise (fun a b => natordCompare a.1 b.1 = .lt)

/- ===================== JSON values ===================== -/

/-- Model of `serde_json::Value` as used by the inventory model for the
`Data`, `Extras`, `Defaults` and transform-option blobs.  Numbers are
embedded as integers; no claim inspects numeric contents. -/
inductive Json where
  | null
  | bool (b : Bool)
  | num (n : Int)
  | str (s : String)
  | arr (elems : List Json)
  | obj (fields : List (String × Json))

/- ===================== ParentGroups ===================== -/

/-- `ParentGroups` (src/nornir-core/src/inventory.rs line 121): a wrapped
vector of group-name strings. -/
structure ParentGroups where
  toList : List String

/-- `ParentGroupsVisitor::visit_seq` (src/nornir-core/src/inventory.rs
lines 172-185): folds the incoming sequence into a vector, pushing an
element only if the vector does not already contain it. -/
def parentGroupsVisitSeq (xs : List String) : List String :=
  xs.foldl (fun groups value => if value ∈ groups then groups else groups ++ [value]) []

/-- Specification-side first-occurrence deduplication, worker: keeps an
element only the first time it is seen. -/
def dedupFirstGo (seen : List String) : List String → List String
  | [] => []
  | x :: xs => if x ∈ seen then dedupFirstGo seen xs else x :: dedupFirstGo (seen ++ [x]) xs

/-- Specification-side statement of "the sequence with later duplicates
removed and the order of first occurrences preserved". -/
def dedupFirst (xs : List String) : List String :=
  dedupFirstGo [] xs

/-- The error message produced by `impl Deserialize for ParentGroups`
(src/nornir-core/src/inventory.rs line 144). -/
def parentGroupsErrMsg : String :=
  "Groups should be an array of strings for use with `ParentGroups`"

/-- Extracts the strings of a JSON array whose elements are all strings;
`none` when some element is not a string (deserializing that element as a
`String` fails). -/
def asStringList : List Json → Option (List String)
  | [] => some []
  | .str s :: t => (asStringList t).map (fun rest => s :: rest)
  | _ :: _ => none

/-- `impl Deserialize for ParentGroups` (src/nornir-core/src/inventory.rs
lines 135-150): drives `ParentGroupsVisitor` over the input; a sequence of
strings is deduplicated by `visit_seq`, and any failure (a non-sequence
input, handled by `visit_str`/the format, or a non-string element) is
replaced by the single descriptive error message.  `Except` has no partial
value in its error case. -/
def deserializeParentGroups : Json → Except String ParentGroups
  | .arr elems =>
    match asStringList elems with
    | some ss => .ok ⟨parentGroupsVisitSeq ss⟩
    | none => .error parentGroupsErrMsg
  | _ => .error parentGroupsErrMsg

example : parentGroupsVisitSeq ["cisco", "juniper", "cisco", "arista", "juniper"]
    = ["cisco", "juniper", "arista"] := by decide

/- ===================== Inventory data model ===================== -/

/-- `ConnectionOptions` (src/nornir-core/src/inventory.rs lines 61-68):
per-connection-type overrides, every field optional. -/
structure ConnectionOptions where
  hostname : Option String
  port : Option Nat
  username : Option String
  password : Option String
  platform : Option String
  extras : Option Json

/-- `ConnectionOptions::new`: all fields absent. -/
def ConnectionOptions.new : ConnectionOptions :=
  ⟨none, none, none, none, none, none⟩

/-- `ResolvedConnectionParams` (src/nornir-core/src/inventory.rs
lines 71-78). -/
structure ResolvedConnectionParams where
  hostname : String
  port : Option Nat
  username : Option String
  password : Option String
  platform : Option String
  extras : Option Json

/-- `Host` (src/nornir-core/src/inventory.rs lines 214-228).  The shared
`Arc<Defaults>` is embedded by value; sharing is not observable in any
claim. -/
structure Host where
  name : String
  hostname : Option String
  port : Option Nat
  username : Option String
  password : Option String
  platform : Option String
  groups : Option ParentGroups
  data : Option Json
  connection_options : Option (CustomTreeMap ConnectionOptions)
  defaults : Option Json
  resolved_connection_params : CustomTreeMap ResolvedConnectionParams

/-- `Host::new` (src/nornir-core/src/inventory.rs lines 231-245). -/
def Host.new (name : String) : Host :=
  ⟨name, none, none, none, none, none, none, none, none, none, CustomTreeMap.new⟩

/-- The override entry consulted by `resolve_connection_params`: the nested
`if let Some(options_map) = &self.connection_options` /
`if let Some(options) = options_map.get(connection_type)` lookups
(src/nornir-core/src/inventory.rs lines 271-272). -/
def Host.optionsFor (h : Host) (connection_type : String) : Option ConnectionOptions :=
  match h.connection_options with
  | some options_map => options_map.get connection_type
  | none => none

/-- `Host::resolve_connection_params` (src/nornir-core/src/inventory.rs
lines 250-301).  The Rust method mutates the host's cache and returns a
reference into it; the embedding returns the updated host together with
the cache lookup performed by the final
`self.resolved_connection_params.get(connection_type)` (the `.expect` is
modelled by the `Option`). -/
def Host.resolve_connection_params (h : Host) (connection_type : String) :
    Host × Option ResolvedConnectionParams :=
  if (h.resolved_connection_params.get connection_type).isNone then
    let base : ResolvedConnectionParams :=
      { hostname := match h.hostname with | some hn => hn | none => h.name
        port := h.port
        username := h.username
        password := h.password
        platform := h.platform
        extras := none }
    let resolved : ResolvedConnectionParams :=
      match h.optionsFor connection_type with
      | some options =>
        { hostname := match options.hostname with | some hn => hn | none => base.hostname
          port := if options.port.isSome then options.port else base.port
          username := if options.username.isSome then options.username else base.username
          password := if options.password.isSome then options.password else base.password
          platform := if options.platform.isSome then options.platform else base.platform
          extras := if options.extras.isSome then options.extras else base.extras }
      | none => base
    let h2 : Host :=
      { h with resolved_connection_params :=
          h.resolved_connection_params.insert connection_type resolved }
    (h2, h2.resolved_connection_params.get connection_type)
  else
    (h, h.resolved_connection_params.get connection_type)

/-- `Group` (src/nornir-core/src/inventory.rs lines 408-418): a host-shaped
template without a name or a resolved-parameter cache.  Named `HostGroup`
here because Lean's `Group` is taken by Mathlib. -/
structure HostGroup where
  hostname : Option String
  port : Option Nat
  username : Option String
  password : Option String
  platform : Option String
  groups : Option ParentGroups
  data : Option Json
  connection_options : Option (CustomTreeMap ConnectionOptions)
  defaults : Option Json

/- ===================== Connection cache ===================== -/

/-- `ConnectionKey` (src/nornir-core/src/inventory.rs lines 637-640):
derives `Eq` and `Hash`, so the `DashMap` matches keys by plain structural
equality (not by the natural-order comparison). -/
structure ConnectionKey where
  hostname : String
  connection_type : String
deriving DecidableEq

/-- Identity of a live connection object: `Arc::ptr_eq` distinguishes
`Arc<Mutex<dyn Connection>>` allocations, so each allocation carries a
fresh numeric id. -/
abbrev ConnId := Nat

/-- `DashMap::get`, on the association-list embedding of the map. -/
def dashGet : List (ConnectionKey × ConnId) → ConnectionKey → Option ConnId
  | [], _ => none
  | e :: t, k => if e.1 = k then some e.2 else dashGet t k

/-- `DashMap::entry(key).or_insert_with(..)`: one atomic insert-if-absent.
The provided value is installed only when the key is absent. -/
def dashOrInsert (m : List (ConnectionKey × ConnId)) (k : ConnectionKey) (v : ConnId) :
    List (ConnectionKey × ConnId) :=
  match dashGet m k with
  | some _ => m
  | none => (k, v) :: m

/-- `DashMap::remove`: removes the entry for the key (if any) and returns
the removed value. -/
def dashRemove : List (ConnectionKey × ConnId) → ConnectionKey →
    List (ConnectionKey × ConnId) × Option ConnId
  | [], _ => ([], none)
  | e :: t, k =>
    if e.1 = k then (t, some e.2)
    else
      let r := dashRemove t k
      (e :: r.1, r.2)

/-- `ConnectionManager` (src/nornir-core/src/inventory.rs lines 653-655):
the concurrent map from keys to shared connection handles, embedded as an
association list of object ids with structurally unique keys. -/
structure ConnectionManager where
  connections_map : List (ConnectionKey × ConnId)
deriving DecidableEq

/-- `ConnectionManager::get` (src/nornir-core/src/inventory.rs
lines 658-662). -/
def ConnectionManager.get (m : ConnectionManager) (key : ConnectionKey) : Option ConnId :=
  dashGet m.connections_map key

/-- `ConnectionManager::get_or_create` (src/nornir-core/src/inventory.rs
lines 670-684), single-threaded execution.  The caller-supplied
constructor is an arbitrary state transformer `ctor : S → S × ConnId`
(its state effect stands for "the constructor ran once"); the source first
checks `get`, and only on a miss runs `ctor()` and performs the atomic
`entry(key).or_insert_with`, returning the locally built handle. -/
def ConnectionManager.get_or_create {S : Type} (m : ConnectionManager) (key : ConnectionKey)
    (ctor : S → S × ConnId) (s : S) : ConnectionManager × S × ConnId :=
  match m.get key with
  | some connection => (m, s, connection)
  | none =>
    let built := ctor s
    (⟨dashOrInsert m.connections_map key built.2⟩, built.1, built.2)

/-- `ConnectionManager::close_connection` (src/nornir-core/src/inventory.rs
lines 688-694): removes the entry for the key; when one was present its
`close()` is invoked (the lock always succeeds single-threaded).  The
second component records the connection whose `close()` ran. -/
def ConnectionManager.close_connection (m : ConnectionManager) (key : ConnectionKey) :
    ConnectionManager × Option ConnId :=
  let r := dashRemove m.connections_map key
  (⟨r.1⟩, r.2)

/- ===================== Concurrent get_or_create ===================== -/

/-- Progress of one thread through the body of `get_or_create`:
`start` before the initial `self.get(&key)` read; `missed` after that read
returned nothing; `built id` after `ctor()` allocated connection `id`;
`finished ret` once the call returned handle `ret`. -/
inductive ThreadPhase where
  | start
  | missed
  | built (id : ConnId)
  | finished (ret : ConnId)
deriving DecidableEq

/-- One thread executing `get_or_create` for its key. -/
structure RaceThread where
  key : ConnectionKey
  phase : ThreadPhase
deriving DecidableEq

/-- Shared state of N threads racing through `get_or_create`: the
`DashMap`, the allocator of fresh `Arc` identities, and the shared counter
the claim's constructor increments on every invocation. -/
structure RaceState where
  map : List (ConnectionKey × ConnId)
  nextId : Nat
  ctorCount : Nat
  threads : List RaceThread
deriving DecidableEq

/-- One atomic step of thread `i`.  Each `DashMap` operation in the source
is individually atomic: the initial `get` read, the constructor call, and
the `entry(key).or_insert_with` insert-if-absent followed by returning the
local `connection` (that return touches no shared state). -/
def raceStep (σ : RaceState) (i : Nat) : RaceState :=
  match σ.threads[i]? with
  | none => σ
  | some t =>
    match t.phase with
    | .start =>
      match dashGet σ.map t.key with
      | some c => { σ with threads := σ.threads.set i { t with phase := .finished c } }
      | none => { σ with threads := σ.threads.set i { t with phase := .missed } }
    | .missed =>
      { σ with
        nextId := σ.nextId + 1
        ctorCount := σ.ctorCount + 1
        threads := σ.threads.set i { t with phase := .built σ.nextId } }
    | .built id =>
      { σ with
        map := dashOrInsert σ.map t.key id
        threads := σ.threads.set i { t with phase := .finished id } }
    | .finished _ => σ

/-- Runs a schedule: the interleaving is the list of thread indices taking
successive atomic steps. -/
def raceRun (σ : RaceState) (sched : List Nat) : RaceState :=
  sched.foldl raceStep σ

/-- The key used in the racing scenario. -/
def raceKey : ConnectionKey := ⟨"router1.lab", "ssh2"⟩

/-- Two threads about to call `get_or_create` with the same key on an
empty connection manager; no connection exists and the shared counter is
zero. -/
def raceInit : RaceState :=
  ⟨[], 0, 0, [⟨raceKey, .start⟩, ⟨raceKey, .start⟩]⟩

/- ===================== Inventory and Genja view ===================== -/

/-- `Inventory` (src/nornir-core/src/inventory.rs lines 612-623).  The
transform function is a closure and the connection manager is runtime
state shared by `Arc`; neither affects any claim about the host set, so
the embedding carries the serializable fields. -/
structure Inventory where
  hosts : CustomTreeMap Host
  groups : Option (CustomTreeMap HostGroup)
  defaults : Option Json

/-- `Genja` (src/genja-core/src/lib.rs lines 14-21): a shared inventory
plus the list of host ids forming the current view.  The `Arc<Inventory>`
is embedded by value; `filter` copies it unchanged, which is exactly what
cloning the `Arc` observes. -/
structure Genja where
  inventory : Inventory
  host_ids : List String

/-- `Genja::new` (src/genja-core/src/lib.rs lines 26-36): the view of all
hosts, ids cloned from the map's keys. -/
def Genja.new (inventory : Inventory) : Genja :=
  ⟨inventory, inventory.hosts.entries.map Prod.fst⟩

/-- `Genja::filter` (src/genja-core/src/lib.rs lines 39-55): iterates the
shared inventory's host map and keeps the ids of the hosts satisfying the
predicate; the inventory itself is shared untouched. -/
def Genja.filter (g : Genja) (pred : Host → Bool) : Genja :=
  ⟨g.inventory,
   g.inventory.hosts.entries.filterMap
     (fun e => if pred e.2 then some e.1 else none)⟩

/-- `Genja::iter_hosts` (src/genja-core/src/lib.rs lines 57-61): looks each
view id back up in the shared host map. -/
def Genja.iter_hosts (g : Genja) : List Host :=
  g.host_ids.filterMap (fun id => g.inventory.hosts.get id)

/-- `Genja::host_count` (src/genja-core/src/lib.rs lines 67-69). -/
def Genja.host_count (g : Genja) : Nat :=
  g.host_ids.length

/- ===================== Concrete witness data ===================== -/

/-- A concrete connection key used by witnesses. -/
def wKey : ConnectionKey := ⟨"router1.lab", "netconf"⟩

/-- A concrete counting constructor: increments the shared counter and
yields the connection object with id 7. -/
def wCtor : Nat → Nat × ConnId := fun n => (n + 1, 7)

/-- A manager already holding connection 3 under `wKey`. -/
def wMgr : ConnectionManager := ⟨[(wKey, 3)]⟩

/-- An empty manager. -/
def wEmptyMgr : ConnectionManager := ⟨[]⟩

/-- A concrete host with no explicit hostname, base port 22 and a
"netconf" override carrying port 830. -/
def wHost3 : Host :=
  { Host.new "router1.lab" with
      port := some 22
      connection_options :=
        some ⟨[("netconf", { ConnectionOptions.new with port := some 830 })]⟩ }

/-- A concrete host used for the memoization witness. -/
def wHost4 : Host := { Host.new "switch1.lab" with port := some 22 }

/-- `wHost4` after a first resolution for "ssh" and a subsequent mutation
of its base port. -/
def wHost4Mut : Host :=
  { (wHost4.resolve_connection_params "ssh").1 with port := some 9999 }

/-- Concrete hosts for the `Genja::filter` witness. -/
def wHostA : Host := { Host.new "host2" with port := some 22 }

def wHostB : Host := Host.new "host10"

/-- A concrete inventory whose host map is in natural order. -/
def wInv : Inventory := ⟨⟨[("host2", wHostA), ("host10", wHostB)]⟩, none, none⟩

/-- The all-hosts view of `wInv`. -/
def wGenja : Genja := Genja.new wInv

/-- A concrete predicate: hosts that carry an explicit port. -/
def wPred : Host → Bool := fun h => h.port.isSome

/- ===================== Supporting lemmas ===================== -/

theorem nat_compare_self (n : Nat) : compare n n = .eq :=
  compare_eq_iff_eq.mpr rfl

theorem lexCmp_self : ∀ l : List Char, lexCmp l l = .eq
  | [] => rfl
  | c :: t => by simp [lexCmp, nat_compare_self, lexCmp_self t]

theorem runCmp_self (r : List Char) : runCmp r r = .eq := by
  unfold runCmp
  split
  · exact nat_compare_self _
  · exact lexCmp_self r

theorem runsCmp_self : ∀ rs : List (List Char), runsCmp rs rs = .eq
  | [] => rfl
  | r :: t => by simp [runsCmp, runCmp_self, runsCmp_self t]

theorem natordCompare_self (s : String) : natordCompare s s = .eq :=
  runsCmp_self _

theorem ctmGet_ctmInsert_self {V : Type} :
    ∀ (l : List (String × V)) (k : String) (v : V),
      ctmGet (ctmInsert l k v) k = some v
  | [], k, v => by simp [ctmInsert, ctmGet, natordCompare_self]
  | e :: t, k, v => by
    unfold ctmInsert
    cases h : natordCompare e.1 k with
    | eq => simp [ctmGet, h]
    | gt => simp [ctmGet, natordCompare_self]
    | lt => simp [ctmGet, h, ctmGet_ctmInsert_self t k v]

/-- The pair returned by `resolve_connection_params` is always the updated
host together with that host's own cache lookup. -/
theorem resolve_snd_eq_get (h : Host) (ct : String) :
    (h.resolve_connection_params ct).2
      = (h.resolve_connection_params ct).1.resolved_connection_params.get ct := by
  unfold Host.resolve_connection_params
  split <;> rfl

theorem resolve_entry_some (h : Host) (ct : String) :
    ∃ r, (h.resolve_connection_params ct).2 = some r := by
  cases hg : h.resolved_connection_params.get ct with
  | some r =>
    refine ⟨r, ?_⟩
    unfold Host.resolve_connection_params
    simp [hg]
  | none =>
    unfold Host.resolve_connection_params
    simp only [hg, Option.isNone_none, if_true]
    exact ⟨_, ctmGet_ctmInsert_self _ _ _⟩

/-- When the cache already holds an entry, `resolve_connection_params`
returns it and leaves the host (in particular its cache) untouched. -/
theorem resolve_cached (h : Host) (ct : String) (r : ResolvedConnectionParams)
    (hc : h.resolved_connection_params.get ct = some r) :
    h.resolve_connection_params ct = (h, some r) := by
  unfold Host.resolve_connection_params
  simp [hc]

theorem foldl_dedup_eq_go (xs : List String) : ∀ acc : List String,
    xs.foldl (fun groups value => if value ∈ groups then groups else groups ++ [value]) acc
      = acc ++ dedupFirstGo acc xs := by
  induction xs with
  | nil => intro acc; simp [dedupFirstGo]
  | cons x xs ih =>
    intro acc
    by_cases hx : x ∈ acc
    · simp [dedupFirstGo, hx, ih acc]
    · simp [dedupFirstGo, hx, ih (acc ++ [x])]

theorem dedupFirstGo_nodup : ∀ (xs seen : List String),
    (dedupFirstGo seen xs).Nodup ∧ ∀ a ∈ dedupFirstGo seen xs, a ∉ seen := by
  intro xs
  induction xs with
  | nil => intro seen; simp [dedupFirstGo]
  | cons x xs ih =>
    intro seen
    by_cases hx : x ∈ seen
    · simpa [dedupFirstGo, hx] using ih seen
    · have ihx := ih (seen ++ [x])
      refine ⟨?_, ?_⟩
      · simp only [dedupFirstGo, hx, if_false, List.nodup_cons]
        refine ⟨fun hmem => ?_, ihx.1⟩
        exact ihx.2 x hmem (by simp)
      · intro a ha
        simp only [dedupFirstGo, hx, if_false, List.mem_cons] at ha
        cases ha with
        | inl he => simpa [he] using hx
        | inr hm => intro hseen; exact ihx.2 a hm (by simp [hseen])

theorem asStringList_eq_map : ∀ (elems : List Json) (ss : List String),
    asStringList elems = some ss → elems = ss.map Json.str := by
  intro elems
  induction elems with
  | nil => intro ss h; cases h; rfl
  | cons e t ih =>
    intro ss h
    cases e with
    | str s =>
      simp only [asStringList, Option.map_eq_some'] at h
      obtain ⟨rest, hrest, hss⟩ := h
      subst hss
      simp [ih rest hrest]
    | null => exact absurd h (by simp [asStringList])
    | bool b => exact absurd h (by simp [asStringList])
    | num n => exact absurd h (by simp [asStringList])
    | arr elems => exact absurd h (by simp [asStringList])
    | obj fields => exact absurd h (by simp [asStringList])

theorem dashGet_dashOrInsert_absent (m : List (ConnectionKey × ConnId))
    (k : ConnectionKey) (v : ConnId) (h : dashGet m k = none) :
    dashGet (dashOrInsert m k v) k = some v := by
  simp [dashOrInsert, h, dashGet]

/-- `get_or_create` on a key that is present returns the stored handle and
leaves both the map and the constructor state untouched. -/
theorem get_or_create_hit {S : Type} (m : ConnectionManager) (key : ConnectionKey)
    (ctor : S → S × ConnId) (s : S) (c : ConnId) (hc : m.get key = some c) :
    m.get_or_create key ctor s = (m, s, c) := by
  unfold ConnectionManager.get_or_create
  simp [hc]

/-- `get_or_create` on an absent key runs the constructor once, installs
the fresh handle under the key, and returns it. -/
theorem get_or_create_miss {S : Type} (m : ConnectionManager) (key : ConnectionKey)
    (ctor : S → S × ConnId) (s : S) (hn : m.get key = none) :
    (m.get_or_create key ctor s).2.1 = (ctor s).1 ∧
    (m.get_or_create key ctor s).2.2 = (ctor s).2 ∧
    (m.get_or_create key ctor s).1.get key = some (ctor s).2 := by
  have hres : m.get_or_create key ctor s
      = (⟨dashOrInsert m.connections_map key (ctor s).2⟩, (ctor s).1, (ctor s).2) := by
    unfold ConnectionManager.get_or_create
    simp [hn]
  rw [hres]
  exact ⟨rfl, rfl, dashGet_dashOrInsert_absent _ _ _ hn⟩

theorem dashRemove_snd : ∀ (m : List (ConnectionKey × ConnId)) (k : ConnectionKey),
    (dashRemove m k).2 = dashGet m k := by
  intro m
  induction m with
  | nil => intro k; rfl
  | cons e t ih =>
    intro k
    by_cases he : e.1 = k <;> simp [dashRemove, dashGet, he, ih k]

theorem dashGet_eq_none_of_not_mem :
    ∀ (m : List (ConnectionKey × ConnId)) (k : ConnectionKey),
      k ∉ m.map Prod.fst → dashGet m k = none := by
  intro m
  induction m with
  | nil => intro k _; rfl
  | cons e t ih =>
    intro k hk
    simp only [List.map_cons, List.mem_cons] at hk
    push_neg at hk
    have hne : ¬ e.1 = k := fun h => hk.1 h.symm
    simp [dashGet, hne, ih k hk.2]

theorem dashGet_dashRemove_self :
    ∀ (m : List (ConnectionKey × ConnId)) (k : ConnectionKey),
      (m.map Prod.fst).Nodup → dashGet (dashRemove m k).1 k = none := by
  intro m
  induction m with
  | nil => intro k _; rfl
  | cons e t ih =>
    intro k hn
    simp only [List.map_cons, List.nodup_cons] at hn
    by_cases he : e.1 = k
    · simp only [dashRemove, he, if_true]
      exact dashGet_eq_none_of_not_mem t k (he ▸ hn.1)
    · simp [dashRemove, he, dashGet, ih k hn.2]

theorem ctmGet_of_sorted {V : Type} :
    ∀ (l : List (String × V)),
      l.Pairwise (fun a b => natordCompare a.1 b.1 = .lt) →
      ∀ (k : String) (v : V), (k, v) ∈ l → ctmGet l k = some v := by
  intro l
  induction l with
  | nil => intro _ k v hm; cases hm
  | cons e t ih =>
    intro hp k v hm
    rcases List.pairwise_cons.mp hp with ⟨hrel, htail⟩
    cases hm with
    | head => simp [ctmGet, natordCompare_self]
    | tail _ hmt =>
      have hlt : natordCompare e.1 k = .lt := hrel (k, v) hmt
      simp [ctmGet, hlt, ih htail k v hmt]

theorem filterMap_if_eq_map_fst_filter {V : Type} (p : V → Bool) :
    ∀ l : List (String × V),
      l.filterMap (fun e => if p e.2 then some e.1 else none)
        = (l.filter (fun e => p e.2)).map Prod.fst := by
  intro l
  induction l with
  | nil => rfl
  | cons e t ih =>
    by_cases he : p e.2 <;> simp [List.filterMap_cons, List.filter_cons, he, ih]

theorem filterMap_get_eq_map_snd {V : Type} (f : String → Option V) :
    ∀ l : List (String × V), (∀ e ∈ l, f e.1 = some e.2) →
      (l.map Prod.fst).filterMap f = l.map Prod.snd := by
  intro l
  induction l with
  | nil => intro _; rfl
  | cons e t ih =>
    intro hf
    have he := hf e (by simp)
    simp [List.filterMap_cons, he, ih fun x hx => hf x (by simp [hx])]

/- ===================== Claim theorems ===================== -/

/-- Claim C1 (evidence of the code defect): two threads calling
`get_or_create` with the same key on an empty manager, interleaved so that
both initial `get` lookups run before either constructs, make the
constructor run in both threads (the shared counter reaches 2, not 1), and
the losing thread returns its own connection (id 1) while the map stores
the winner's (id 0) — so not all callers return the winning handle.  The
claim — constructor runs for at most one caller and every caller returns
the winning handle — is therefore violated by
`ConnectionManager::get_or_create`. -/
theorem get_or_create_race_runs_ctor_twice :
    (raceRun raceInit [0, 1, 0, 1, 0, 1]).ctorCount = 2 ∧
    (raceRun raceInit [0, 1, 0, 1, 0, 1]).threads.map RaceThread.phase
      = [.finished 0, .finished 1] ∧
    (raceRun raceInit [0, 1, 0, 1, 0, 1]).map = [(raceKey, 0)] ∧
    (0 : ConnId) ≠ 1 := by
  refine ⟨by decide, by decide, by decide, by decide⟩

/-- Claim C2: sequentially, `get_or_create` on a present key returns the
stored handle without invoking the constructor (the constructor state is
returned untouched, for every constructor over every state type); on an
absent key it invokes the constructor exactly once (the returned state is
one application of `ctor`), installs the new connection under the key, and
returns the same object a subsequent `get` yields. -/
theorem get_or_create_sequential_contract {S : Type} (m : ConnectionManager)
    (key : ConnectionKey) (ctor : S → S × ConnId) (s : S) :
    (∀ c, m.get key = some c → m.get_or_create key ctor s = (m, s, c)) ∧
    (m.get key = none →
      (m.get_or_create key ctor s).2.1 = (ctor s).1 ∧
      (m.get_or_create key ctor s).2.2 = (ctor s).2 ∧
      (m.get_or_create key ctor s).1.get key = some (ctor s).2) :=
  ⟨fun c hc => get_or_create_hit m key ctor s c hc,
   fun hn => get_or_create_miss m key ctor s hn⟩

/-- Witness for C2: both branches exercised at concrete inputs — a manager
holding connection 3 under the key, and an empty manager with the counting
constructor starting at 0. -/
theorem get_or_create_sequential_contract_witness :
    (wMgr.get wKey = some 3 ∧ wMgr.get_or_create wKey wCtor 0 = (wMgr, 0, 3)) ∧
    (wEmptyMgr.get wKey = none ∧
      (wEmptyMgr.get_or_create wKey wCtor 0).2.1 = (wCtor 0).1 ∧
      (wEmptyMgr.get_or_create wKey wCtor 0).2.2 = (wCtor 0).2 ∧
      (wEmptyMgr.get_or_create wKey wCtor 0).1.get wKey = some (wCtor 0).2) :=
  ⟨⟨rfl, (get_or_create_sequential_contract wMgr wKey wCtor 0).1 3 rfl⟩,
   ⟨rfl, (get_or_create_sequential_contract wEmptyMgr wKey wCtor 0).2 rfl⟩⟩

/-- Claim C5: `close_connection` removes the entry for the key — `get`
afterwards returns nothing, and a later `get_or_create` invokes the
constructor (one application of `ctor`) to build a fresh connection stored
under the same key — and the `close()` record equals exactly the
previously stored entry (`close()` ran iff the key was present, on the
stored connection).  The key-uniqueness hypothesis is the invariant of the
underlying `DashMap`. -/
theorem close_connection_evicts_key {S : Type} (m : ConnectionManager)
    (key : ConnectionKey) (ctor : S → S × ConnId) (s : S)
    (hkeys : (m.connections_map.map Prod.fst).Nodup) :
    (m.close_connection key).1.get key = none ∧
    (m.close_connection key).2 = m.get key ∧
    ((m.close_connection key).1.get_or_create key ctor s).2.1 = (ctor s).1 ∧
    ((m.close_connection key).1.get_or_create key ctor s).2.2 = (ctor s).2 ∧
    (((m.close_connection key).1.get_or_create key ctor s).1).get key
      = some (ctor s).2 := by
  have hnone : (m.close_connection key).1.get key = none :=
    dashGet_dashRemove_self m.connections_map key hkeys
  have hmiss := get_or_create_miss (m.close_connection key).1 key ctor s hnone
  exact ⟨hnone, dashRemove_snd m.connections_map key, hmiss.1, hmiss.2.1, hmiss.2.2⟩

/-- Witness for C5: closing the key on a manager holding connection 3
under it, then re-creating with the counting constructor. -/
theorem close_connection_evicts_key_witness :
    (wMgr.connections_map.map Prod.fst).Nodup ∧
    ((wMgr.close_connection wKey).1.get wKey = none ∧
     (wMgr.close_connection wKey).2 = wMgr.get wKey ∧
     ((wMgr.close_connection wKey).1.get_or_create wKey wCtor 0).2.1 = (wCtor 0).1 ∧
     ((wMgr.close_connection wKey).1.get_or_create wKey wCtor 0).2.2 = (wCtor 0).2 ∧
     (((wMgr.close_connection wKey).1.get_or_create wKey wCtor 0).1).get wKey
       = some (wCtor 0).2) :=
  ⟨by decide, close_connection_evicts_key wMgr wKey wCtor 0 (by decide)⟩

/-- Claim C3: on a first call with no cached entry for the connection
type, `resolve_connection_params` returns a resolved parameter set in
which, with no override entry for the connection type, the hostname is the
host's hostname or (when that is unset) the host's name, the port is the
base port, and the remaining fields are the base fields with no extras;
and, with an override entry, each of hostname, port, username, password,
platform and extras is replaced by the override exactly when that field is
present in it, the base value being inherited otherwise. -/
theorem resolve_connection_params_first_call (h : Host) (ct : String)
    (hc : h.resolved_connection_params.get ct = none) :
    ∃ r, (h.resolve_connection_params ct).2 = some r ∧
      (match h.optionsFor ct with
       | none =>
           r.hostname = (match h.hostname with | some hn => hn | none => h.name) ∧
           r.port = h.port ∧ r.username = h.username ∧ r.password = h.password ∧
           r.platform = h.platform ∧ r.extras = none
       | some o =>
           r.hostname = (match o.hostname with
             | some hn => hn
             | none => match h.hostname with | some hn => hn | none => h.name) ∧
           r.port = (if o.port.isSome then o.port else h.port) ∧
           r.username = (if o.username.isSome then o.username else h.username) ∧
           r.password = (if o.password.isSome then o.password else h.password) ∧
           r.platform = (if o.platform.isSome then o.platform else h.platform) ∧
           r.extras = o.extras) := by
  cases ho : h.optionsFor ct with
  | none =>
    refine ⟨{ hostname := match h.hostname with | some hn => hn | none => h.name
              port := h.port
              username := h.username
              password := h.password
              platform := h.platform
              extras := none }, ?_, ?_⟩
    · unfold Host.resolve_connection_params
      simp only [hc, Option.isNone_none, if_true, ho]
      exact ctmGet_ctmInsert_self _ _ _
    · exact ⟨rfl, rfl, rfl, rfl, rfl, rfl⟩
  | some o =>
    refine ⟨{ hostname := match o.hostname with
                | some hn => hn
                | none => match h.hostname with | some hn => hn | none => h.name
              port := if o.port.isSome then o.port else h.port
              username := if o.username.isSome then o.username else h.username
              password := if o.password.isSome then o.password else h.password
              platform := if o.platform.isSome then o.platform else h.platform
              extras := if o.extras.isSome then o.extras else none }, ?_, ?_⟩
    · unfold Host.resolve_connection_params
      simp only [hc, Option.isNone_none, if_true, ho]
      exact ctmGet_ctmInsert_self _ _ _
    · refine ⟨rfl, rfl, rfl, rfl, rfl, ?_⟩
      cases hoe : o.extras <;> simp [hoe]

/-- Witness for C3: a host with no explicit hostname, base port 22 and a
netconf override carrying port 830, resolved on an empty cache. -/
theorem resolve_connection_params_first_call_witness :
    wHost3.resolved_connection_params.get "netconf" = none ∧
    (∃ r, (wHost3.resolve_connection_params "netconf").2 = some r ∧
      (match wHost3.optionsFor "netconf" with
       | none =>
           r.hostname = (match wHost3.hostname with | some hn => hn | none => wHost3.name) ∧
           r.port = wHost3.port ∧ r.username = wHost3.username ∧
           r.password = wHost3.password ∧
           r.platform = wHost3.platform ∧ r.extras = none
       | some o =>
           r.hostname = (match o.hostname with
             | some hn => hn
             | none => match wHost3.hostname with | some hn => hn | none => wHost3.name) ∧
           r.port = (if o.port.isSome then o.port else wHost3.port) ∧
           r.username = (if o.username.isSome then o.username else wHost3.username) ∧
           r.password = (if o.password.isSome then o.password else wHost3.password) ∧
           r.platform = (if o.platform.isSome then o.platform else wHost3.platform) ∧
           r.extras = o.extras)) :=
  ⟨rfl, resolve_connection_params_first_call wHost3 "netconf" rfl⟩

/-- Claim C4: `resolve_connection_params` is memoizing — any host carrying
the cache produced by a first resolution (in particular the same host
called twice with no cache clearing, or the same host with any of its
other fields mutated in between) resolves to exactly the stored value, and
the call leaves the cache untouched (the stored entry is never silently
replaced). -/
theorem resolve_connection_params_memoized (h : Host) (ct : String) (h2 : Host)
    (hcache : h2.resolved_connection_params
      = (h.resolve_connection_params ct).1.resolved_connection_params) :
    h2.resolve_connection_params ct = (h2, (h.resolve_connection_params ct).2) := by
  obtain ⟨r, hr⟩ := resolve_entry_some h ct
  have hget : (h.resolve_connection_params ct).1.resolved_connection_params.get ct
      = some r := (resolve_snd_eq_get h ct) ▸ hr
  have h2get : h2.resolved_connection_params.get ct = some r := by
    rw [hcache]; exact hget
  rw [hr]
  exact resolve_cached h2 ct r h2get

/-- Witness for C4: `wHost4Mut` is `wHost4` resolved once for "ssh" and
then mutated (its base port changed), yet it shares the cache of the first
resolution, so re-resolving returns the stored value and leaves the host
unchanged. -/
theorem resolve_connection_params_memoized_witness :
    wHost4Mut.resolved_connection_params
      = (wHost4.resolve_connection_params "ssh").1.resolved_connection_params ∧
    wHost4Mut.resolve_connection_params "ssh"
      = (wHost4Mut, (wHost4.resolve_connection_params "ssh").2) :=
  ⟨rfl, resolve_connection_params_memoized wHost4 "ssh" wHost4Mut rfl⟩

/-- Claim C6, counterexample: the natural-order comparison returns `Equal`
on the distinct strings "host01" and "host1" (their digit runs have the
same numeric value), so comparing as equal is not equivalent to equality
of the wrapped strings. -/
theorem natstring_cmp_eq_on_distinct_strings :
    NatString.cmp ⟨"host01"⟩ ⟨"host1"⟩ = .eq ∧ ("host01" : String) ≠ "host1" := by
  exact ⟨by decide, by decide⟩

/-- Claim C6 as amended: the comparison splits both strings into
alternating digit and non-digit runs, comparing digit runs numerically and
other runs by code point; equal strings always compare `Equal` (though the
converse fails for digit runs differing only in leading zeros), and in
particular "host2" < "host10" < "host100". -/
theorem natstring_cmp_amended_props :
    (∀ s : NatString, NatString.cmp s s = .eq) ∧
    NatString.cmp ⟨"host2"⟩ ⟨"host10"⟩ = .lt ∧
    NatString.cmp ⟨"host10"⟩ ⟨"host100"⟩ = .lt :=
  ⟨fun s => natordCompare_self s.str, by decide, by decide⟩

/-- Claim C7: "host01" and "host1" are distinct strings on which the
natural-order comparison returns `Equal`; consequently inserting under
"host1" into a `CustomTreeMap` already holding "host01" replaces the value
stored under "host01" (keeping the old key, as `BTreeMap::insert` does),
both keys look up the same single entry, and the two keys cannot coexist
in one map (its length stays 1). -/
theorem natstring_collision_insert_replaces :
    NatString.cmp ⟨"host01"⟩ ⟨"host1"⟩ = .eq ∧ ("host01" : String) ≠ "host1" ∧
    (((CustomTreeMap.new : CustomTreeMap Nat).insert "host01" 1).insert "host1" 2).entries
      = [("host01", 2)] ∧
    (((CustomTreeMap.new : CustomTreeMap Nat).insert "host01" 1).insert "host1" 2).get
      "host01" = some 2 ∧
    (((CustomTreeMap.new : CustomTreeMap Nat).insert "host01" 1).insert "host1" 2).get
      "host1" = some 2 ∧
    (((CustomTreeMap.new : CustomTreeMap Nat).insert "host01" 1).insert "host1" 2).len
      = 1 := by
  refine ⟨by decide, by decide, by decide, by decide, by decide, by decide⟩

/-- Claim C8: deserializing a sequence of group names yields exactly the
input with later duplicates removed and first-occurrence order preserved
(the fold of `visit_seq` equals the specification-side first-occurrence
deduplication), hence the resulting list never contains duplicates; the
example from the spec evaluates as stated. -/
theorem parent_groups_dedup_first_occurrence :
    (∀ xs : List String, parentGroupsVisitSeq xs = dedupFirst xs) ∧
    (∀ xs : List String, (parentGroupsVisitSeq xs).Nodup) ∧
    parentGroupsVisitSeq ["cisco", "juniper", "cisco", "arista", "juniper"]
      = ["cisco", "juniper", "arista"] := by
  have heq : ∀ xs : List String, parentGroupsVisitSeq xs = dedupFirst xs := by
    intro xs
    unfold parentGroupsVisitSeq dedupFirst
    simpa using foldl_dedup_eq_go xs []
  refine ⟨heq, ?_, by decide⟩
  intro xs
  rw [heq xs]
  exact (dedupFirstGo_nodup xs []).1

/-- Claim C9: deserializing any input that is not a sequence of strings
(a non-array, or an array with a non-string element) fails with the single
descriptive validation error and, the result being the error case of
`Except`, produces no partially built `ParentGroups`. -/
theorem parent_groups_malformed_errors (j : Json)
    (hm : ¬ ∃ ss : List String, j = Json.arr (ss.map Json.str)) :
    deserializeParentGroups j = .error parentGroupsErrMsg := by
  cases j with
  | arr elems =>
    unfold deserializeParentGroups
    cases hs : asStringList elems with
    | none => simp [hs]
    | some ss => exact absurd ⟨ss, by rw [asStringList_eq_map elems ss hs]⟩ hm
  | null => rfl
  | bool b => rfl
  | num n => rfl
  | str s => rfl
  | obj fields => rfl

/-- Witness for C9: a bare string (the input of the repository's own test)
is not an array of strings and fails with the descriptive error. -/
theorem parent_groups_malformed_errors_witness :
    (¬ ∃ ss : List String, Json.str "name" = Json.arr (ss.map Json.str)) ∧
    deserializeParentGroups (Json.str "name") = .error parentGroupsErrMsg := by
  have hnot : ¬ ∃ ss : List String, Json.str "name" = Json.arr (ss.map Json.str) := by
    rintro ⟨ss, hss⟩
    cases hss
  exact ⟨hnot, parent_groups_malformed_errors (Json.str "name") hnot⟩

/-- Claim C10: `Genja::filter` leaves the shared inventory unchanged and
produces a view whose `host_count` is the number of hosts in the inventory
satisfying the predicate and whose `iter_hosts` yields exactly the
satisfying hosts, in the natural order of their keys (the host map being
in its `BTreeMap` ascending natural order). -/
theorem genja_filter_view (g : Genja) (pred : Host → Bool)
    (hs : g.inventory.hosts.NatSorted) :
    (g.filter pred).inventory = g.inventory ∧
    (g.filter pred).host_count
      = g.inventory.hosts.entries.countP (fun e => pred e.2) ∧
    (g.filter pred).iter_hosts
      = (g.inventory.hosts.entries.filter (fun e => pred e.2)).map Prod.snd := by
  refine ⟨rfl, ?_, ?_⟩
  · show (g.inventory.hosts.entries.filterMap
      (fun e => if pred e.2 then some e.1 else none)).length = _
    rw [filterMap_if_eq_map_fst_filter]
    simp [List.countP_eq_length_filter]
  · show (g.inventory.hosts.entries.filterMap
      (fun e => if pred e.2 then some e.1 else none)).filterMap
        (fun id => g.inventory.hosts.get id) = _
    rw [filterMap_if_eq_map_fst_filter]
    apply filterMap_get_eq_map_snd
    intro e he
    have hmem : e ∈ g.inventory.hosts.entries := List.mem_of_mem_filter he
    exact ctmGet_of_sorted g.inventory.hosts.entries hs e.1 e.2 hmem

/-- Witness for C10: a two-host inventory in natural key order, filtered
by "has an explicit port", keeps only "host2" and leaves the inventory
unchanged. -/
theorem genja_filter_view_witness :
    wGenja.inventory.hosts.NatSorted ∧
    ((wGenja.filter wPred).inventory = wGenja.inventory ∧
     (wGenja.filter wPred).host_count
       = wGenja.inventory.hosts.entries.countP (fun e => wPred e.2) ∧
     (wGenja.filter wPred).iter_hosts
       = (wGenja.inventory.hosts.entries.filter (fun e => wPred e.2)).map Prod.snd) := by
  have hs : wGenja.inventory.hosts.NatSorted := by
    show List.Pairwise _ _
    refine List.Pairwise.cons ?_ (List.Pairwise.cons (by simp) List.Pairwise.nil)
    intro e he
    have : e = ("host10", wHostB) := by simpa [wGenja, Genja.new, wInv] using he
    rw [this]
    decide
  exact ⟨hs, genja_filter_view wGenja wPred hs⟩
